import Mathlib

/-!
Verification development for the code_prompt_generator repository.

Python strings are modelled as `List Char`; Python `dict`s as functions into
`Option`; machine-independent integers (`st_size`, `st_mtime_ns`, character
counts) as `Nat`, since the Python values involved are non-negative.
Definitions mirror the source functions in
`app/models/project_model.py`, `app/controllers/main_controller.py` and
`app/utils/*.py`; each definition's doc comment names the source it embeds.
-/

namespace CPG

abbrev Str := List Char

/-- Python `str.replace("\r\n", "\n")` (global, leftmost, non-overlapping),
as called by `unify_line_endings` in `app/utils/system_utils.py`. -/
def replaceCRLF : Str → Str
  | [] => []
  | '\r' :: '\n' :: r => '\n' :: replaceCRLF r
  | c :: r => c :: replaceCRLF r

/-- Python `str.replace("\r", "\n")` (global), second step of `unify_line_endings`. -/
def replaceCR : Str → Str
  | [] => []
  | '\r' :: r => '\n' :: replaceCR r
  | c :: r => c :: replaceCR r

/-- Embeds `unify_line_endings` from `app/utils/system_utils.py`:
`text.replace('\r\n', '\n').replace('\r', '\n')`. -/
def unify_line_endings (s : Str) : Str := replaceCR (replaceCRLF s)

/-- Characters stripped by Python's argument-less `str.strip` / `str.rstrip`
(ASCII whitespace). -/
def pyIsSpace (c : Char) : Bool :=
  c == ' ' || c == '\t' || c == '\n' || c == '\r' || c == '\x0b' || c == '\x0c'

/-- Strip characters satisfying `p` from the right end of a string. -/
def rstripBy (p : Char → Bool) (s : Str) : Str := (s.reverse.dropWhile p).reverse

/-- Python `str.rstrip()` (no argument). -/
def pyRstrip (s : Str) : Str := rstripBy pyIsSpace s

/-- Python `str.rstrip('\n')`. -/
def pyRstripNl (s : Str) : Str := rstripBy (fun c => c == '\n') s

/-- Python `str.strip()` (no argument). -/
def pyStrip (s : Str) : Str := pyRstrip (s.dropWhile pyIsSpace)

/-- Python substring test `pat in s`. -/
def containsSub (pat : Str) : Str → Bool
  | [] => pat.isPrefixOf ([] : Str)
  | c :: r => pat.isPrefixOf (c :: r) || containsSub pat r

/-- Python `s.replace(old, new, 1)`: replace the leftmost occurrence only. -/
def replaceFirst (old new : Str) : Str → Str
  | [] => if old.isPrefixOf ([] : Str) then new else []
  | c :: r =>
    if old.isPrefixOf (c :: r) then new ++ (c :: r).drop old.length
    else c :: replaceFirst old new r

/-- The characters matched by `[ \t]` in the placeholder-line regex. -/
def isBlankChar (c : Char) : Bool := c == ' ' || c == '\t'

/-- Attempt, at a line start of `s`, the regex
`^[ \t]*<ph>[ \t]*(?:\r?\n|$)` used by `ProjectModel._replace_placeholder_line`
(`app/models/project_model.py`).  Returns the number of characters of `s`
consumed by the match and whether the matched text ends with a newline.
The two `[ \t]*` are taken maximally, which agrees with the backtracking
engine because neither the placeholders nor `\r?\n` start with a blank. -/
def matchAt (ph s : Str) : Option (Nat × Bool) :=
  let s1 := s.dropWhile isBlankChar
  if ph.isPrefixOf s1 then
    let s2 := (s1.drop ph.length).dropWhile isBlankChar
    match s2 with
    | '\r' :: '\n' :: _ => some (s.length - s2.length + 2, true)
    | '\n' :: _ => some (s.length - s2.length + 1, true)
    | [] => some (s.length, false)
    | _ => none
  else none

/-- Split a string at its first `'\n'`, if any. -/
def splitNl : Str → Option (Str × Str)
  | [] => none
  | c :: r =>
    if c = '\n' then some ([], r)
    else (splitNl r).map fun q => (c :: q.1, q.2)

theorem splitNl_length {s b a : Str} (h : splitNl s = some (b, a)) :
    a.length < s.length := by
  induction s generalizing b a with
  | nil => simp [splitNl] at h
  | cons c r ih =>
    rw [splitNl] at h
    split at h
    · obtain ⟨rfl, rfl⟩ : ([] : Str) = b ∧ r = a := by simpa using h
      simp
    · obtain ⟨⟨b1, a1⟩, hq, hb, ha⟩ :
          ∃ q : Str × Str, splitNl r = some q ∧ c :: q.1 = b ∧ q.2 = a := by
        simpa [Prod.ext_iff] using h
      subst hb; subst ha
      have := ih hq
      simp only [List.length_cons]
      omega

/-- The substituted text for one regex match, per the `sub` closure in
`_replace_placeholder_line`: empty replacement erases the matched line;
a non-empty replacement keeps a single trailing newline iff the matched
text ended with one. -/
def mkRepl (repl : Str) (nl : Bool) : Str :=
  if repl = [] then [] else pyRstripNl repl ++ (if nl then ['\n'] else [])

/-- Scan line starts left to right (the `re.MULTILINE` `^` anchor) and
substitute the first match of the placeholder-line regex, if any
(`pat.subn(sub, text, count=1)`). -/
def findLineSub (ph repl : Str) (s : Str) : Option Str :=
  match matchAt ph s with
  | some (n, nl) => some (mkRepl repl nl ++ s.drop n)
  | none =>
    match h : splitNl s with
    | none => none
    | some (b, a) => (findLineSub ph repl a).map fun t => b ++ '\n' :: t
termination_by s.length
decreasing_by exact splitNl_length h

/-- Embeds `ProjectModel._replace_placeholder_line`: substitute the first
whole placeholder line; when no whole line matches, fall back to a plain
first-occurrence substring replacement when the placeholder occurs at all. -/
def replace_placeholder_line (text ph repl : Str) : Str :=
  match findLineSub ph repl text with
  | some t => t
  | none => if containsSub ph text then replaceFirst ph repl text else text

/-- The `{{dirs}}` placeholder token. -/
def PH_DIRS : Str := "\x7b\x7bdirs\x7d\x7d".toList

/-- The `{{files_provided}}` placeholder token. -/
def PH_FILES_PROVIDED : Str := "\x7b\x7bfiles_provided\x7d\x7d".toList

/-- The `{{file_contents}}` placeholder token. -/
def PH_FILE_CONTENTS : Str := "\x7b\x7bfile_contents\x7d\x7d".toList

/-- The `{{CLIPBOARD}}` placeholder token. -/
def PH_CLIPBOARD : Str := "\x7b\x7bCLIPBOARD\x7d\x7d".toList

/-- The oversized-file sentinel `ProjectModel.FILE_TOO_LARGE_SENTINEL`. -/
def FILE_TOO_LARGE_SENTINEL : Str := "<FILE TOO LARGE – SKIPPED>".toList

/-- Result of the per-selection content loop shared by `simulate_generation`
and `simulate_generation_static`. -/
structure LoopOut where
  blocks : List Str
  oversized : List String
  truncated : List String
  totalContent : Nat
  totalChars : Nat
deriving DecidableEq, Repr

/-- One delimited content block, `f"--- \x7brp\x7d ---\n\x7bcontent\x7d\n--- \x7brp\x7d ---\n"`. -/
def contentBlock (rp : String) (content : Str) : Str :=
  "--- ".toList ++ rp.toList ++ " ---\n".toList ++ content ++
    "\n--- ".toList ++ rp.toList ++ " ---\n".toList

/-- Embeds the `for i, rp in enumerate(selection)` loop of
`ProjectModel.simulate_generation` (`guard = true`, whose cutoff test is
`total_content_size + len(content) > self.max_content_size and content`) and of
`ProjectModel.simulate_generation_static` (`guard = false`, cutoff test
without the `and content`).  `fc rp` is `file_contents.get(rp)` (collapsing a
missing key and a stored `None` to `none`, exactly as `dict.get` does);
`fcc rp` is the `file_char_counts` entry; `tc`/`ts` are the running
`total_content_size` / `total_selection_chars`. -/
def simLoop (guard : Bool) (fc : String → Option Str) (fcc : String → Option Nat)
    (maxCS : Nat) : List String → Nat → Nat → LoopOut
  | [], tc, ts => ⟨[], [], [], tc, ts⟩
  | rp :: rest, tc, ts =>
    match fc rp with
    | none => simLoop guard fc fcc maxCS rest tc ts
    | some content =>
      if content = FILE_TOO_LARGE_SENTINEL then
        let r := simLoop guard fc fcc maxCS rest tc (ts + (fcc rp).getD 0)
        ⟨r.blocks, rp :: r.oversized, r.truncated, r.totalContent, r.totalChars⟩
      else if tc + content.length > maxCS ∧ (guard = true → content ≠ []) then
        ⟨[], [], rp :: rest, tc, ts⟩
      else
        let r := simLoop guard fc fcc maxCS rest (tc + content.length) (ts + content.length)
        ⟨contentBlock rp content :: r.blocks, r.oversized, r.truncated, r.totalContent, r.totalChars⟩

/-- Section header `f"### \x7bp\x7d \x7btitle\x7d" if p else f"### \x7btitle\x7d"` with `p`
the stripped project prefix. -/
def makeSection (p : Str) (title : String) : Str :=
  if p = [] then "### ".toList ++ title.toList
  else "### ".toList ++ p ++ (" " ++ title).toList

/-- The `"".join(f"- \x7bx\x7d\n" for x in selection)` bullet list. -/
def filesProvidedLines (selection : List String) : Str :=
  selection.foldr (fun x acc => "- ".toList ++ x.toList ++ '\n' :: acc) []

/-- Result quadruple of the render:
`(prompt, total_selection_chars, oversized_files, truncated_files)`. -/
structure RenderOut where
  prompt : Str
  totalChars : Nat
  oversized : List String
  truncated : List String
deriving DecidableEq, Repr

/-- The placeholder-substitution tail shared by `simulate_generation` and
`simulate_generation_static` after the content loop has produced `r`.
`templateContent` is also the string probed by the `find`-based
`found_placeholders` map. -/
def assemblePrompt (selection : List String) (templateContent clipboardContent dirTree : Str)
    (pfx : Str) (r : LoopOut) : Str :=
  let p := pyStrip pfx
  let s1 := makeSection p "File Structure"
  let s2 := makeSection p "Code Files provided"
  let s3 := makeSection p "Code Files"
  let prompt1 :=
    if containsSub PH_CLIPBOARD templateContent then
      replace_placeholder_line templateContent PH_CLIPBOARD clipboardContent
    else templateContent
  let prompt2 :=
    if containsSub PH_DIRS templateContent then
      replace_placeholder_line prompt1 PH_DIRS
        (if dirTree = [] then [] else s1 ++ "\n\n".toList ++ pyStrip dirTree)
    else prompt1
  let prompt3 :=
    if containsSub PH_FILES_PROVIDED templateContent then
      replace_placeholder_line prompt2 PH_FILES_PROVIDED
        (if selection = [] then []
         else pyRstrip (s2 ++ '\n' :: filesProvidedLines selection))
    else prompt2
  if containsSub PH_FILE_CONTENTS templateContent then
    replace_placeholder_line prompt3 PH_FILE_CONTENTS
      (if r.blocks = [] then []
       else pyRstrip (s3 ++ "\n\n".toList ++ r.blocks.flatten))
  else prompt3

/-- Embeds `ProjectModel.simulate_generation` for a loaded current project:
`pfx` is the project's raw prefix, `fc`/`fcc` the content and char-count
maps, `maxCS` is `self.max_content_size`, `dirTree` the (already computed)
directory tree string.  Returns the quadruple before `simulate_final_prompt`
normalises the trailing newline. -/
def simulate_generation (selection : List String)
    (templateContent clipboardContent dirTree pfx : Str)
    (fc : String → Option Str) (fcc : String → Option Nat) (maxCS : Nat) : RenderOut :=
  let r := simLoop true fc fcc maxCS selection 0 0
  ⟨assemblePrompt selection templateContent clipboardContent dirTree pfx r,
   r.totalChars, r.oversized, r.truncated⟩

/-- Embeds `ProjectModel.simulate_final_prompt`:
`prompt.rstrip('\n') + '\n'` applied to `simulate_generation`'s prompt. -/
def simulate_final_prompt (selection : List String)
    (templateContent clipboardContent dirTree pfx : Str)
    (fc : String → Option Str) (fcc : String → Option Nat) (maxCS : Nat) : RenderOut :=
  let r := simulate_generation selection templateContent clipboardContent dirTree pfx fc fcc maxCS
  ⟨pyRstripNl r.prompt ++ ['\n'], r.totalChars, r.oversized, r.truncated⟩

/-- Embeds the static worker-process variant
`ProjectModel.simulate_generation_static`, whose `model_config` carries the
content map, char-count map and `max_content_size`, and which applies the
final `rstrip('\n') + '\n'` itself. -/
def simulate_generation_static (selection : List String)
    (templateContent clipboardContent dirTree projectPrefix : Str)
    (fc : String → Option Str) (fcc : String → Option Nat) (maxCS : Nat) : RenderOut :=
  let r := simLoop false fc fcc maxCS selection 0 0
  let prompt := assemblePrompt selection templateContent clipboardContent dirTree projectPrefix r
  ⟨pyRstripNl prompt ++ ['\n'], r.totalChars, r.oversized, r.truncated⟩

/-- State of a path on disk, as observed by `os.path.isfile` / `os.stat` /
`safe_read_file` for the file at `os.path.join(proj_path, rp)`.
`file mtime size readData` is a stat-able regular file whose
`st_mtime_ns` is `mtime`, `st_size` is `size`, and for which
`safe_read_file` returns `readData` (that helper absorbs read errors into
`""`, so it always returns a string).  `statError` is a path for which
`os.stat` raises an `OSError` other than `FileNotFoundError`; `absent` a
path raising `FileNotFoundError` (and failing `os.path.isfile`). -/
inductive DiskEntry where
  | absent
  | statError
  | file (mtime size : Nat) (readData : Str)
deriving DecidableEq, Repr

/-- The three parallel dicts owned by `ProjectModel`: `file_contents`
(values may be `None`, hence `Option (Option Str)`: outer `none` = key
absent, `some none` = stored `None`), `file_char_counts` and `file_mtimes`. -/
structure CacheState where
  file_contents : String → Option (Option Str)
  file_char_counts : String → Option Nat
  file_mtimes : String → Option Nat

/-- Python `self.file_contents.get(rp)`: `None` both for a missing key and
for a stored `None` value. -/
def pyGet (σ : CacheState) (rp : String) : Option Str :=
  match σ.file_contents rp with
  | none => none
  | some v => v

/-- The tuple returned by the `load_single` closure inside
`ProjectModel.update_file_contents`: `(relative_path, content, mtime,
char_count)`, with `mtime = none` encoding the `FileNotFoundError` branch's
`None` mtime (which makes the write-back pop the path). -/
structure LoadResult where
  path : String
  content : Option Str
  mtime : Option Nat
  charCount : Nat
deriving DecidableEq, Repr

/-- Embeds the `load_single` closure of `ProjectModel.update_file_contents`:
stat, read (or record the oversized sentinel when `st_size > max_file_size`),
normalise line endings, and compute the char count. -/
def load_single (maxFS : Nat) (disk : String → DiskEntry) (rp : String) : LoadResult :=
  match disk rp with
  | .absent => ⟨rp, none, none, 0⟩
  | .statError => ⟨rp, none, some 0, 0⟩
  | .file m sz d =>
    let c : Str := if sz ≤ maxFS then d else FILE_TOO_LARGE_SENTINEL
    if c = FILE_TOO_LARGE_SENTINEL then ⟨rp, some c, some m, sz⟩
    else ⟨rp, some (unify_line_endings c), some m, (unify_line_endings c).length⟩

/-- Paths of the first classification pass whose cached content is missing
(`self.file_contents.get(rp) is None`), in selection order. -/
def dirtyPhase1 (σ : CacheState) (sel : List String) : List String :=
  sel.filter fun rp => (pyGet σ rp).isNone

/-- The mtime-comparison test applied to each path of `files_to_check_mtime`:
for an existing file, dirty iff the cached mtime differs from the on-disk
one; for a missing or unstat-able file, dirty iff the path has a cached
mtime (`rp in mtimes_copy`). -/
def mtimeDirty (disk : String → DiskEntry) (mtimes : String → Option Nat)
    (rp : String) : Bool :=
  match disk rp with
  | .file m _ _ => decide (mtimes rp ≠ some m)
  | _ => (mtimes rp).isSome

/-- Paths of the second pass (`files_to_check_mtime` filtered by the mtime
comparison), in selection order. -/
def dirtyPhase2 (disk : String → DiskEntry) (σ : CacheState) (sel : List String) :
    List String :=
  (sel.filter fun rp => !(pyGet σ rp).isNone).filter (mtimeDirty disk σ.file_mtimes)

/-- Helper for `dedupFirst`: keep each element not seen before, threading the
set of already-kept elements. -/
def dedupFirstAux (seen : List String) : List String → List String
  | [] => []
  | x :: xs =>
    if x ∈ seen then dedupFirstAux seen xs
    else x :: dedupFirstAux (x :: seen) xs

/-- Python `list(dict.fromkeys(dirty))`: deduplicate keeping the first
occurrence of each element, preserving order. -/
def dedupFirst (l : List String) : List String := dedupFirstAux [] l

/-- The deduplicated dirty list computed by `update_file_contents` before it
dispatches `load_single` over the worker pool. -/
def dirtyPaths (disk : String → DiskEntry) (σ : CacheState) (sel : List String) :
    List String :=
  dedupFirst (dirtyPhase1 σ sel ++ dirtyPhase2 disk σ sel)

/-- Pointwise update of a map modelled as a function. -/
def setF {α : Type} (f : String → α) (k : String) (v : α) : String → α :=
  fun p => if p = k then v else f p

/-- One iteration of the write-back loop of `update_file_contents`: a `None`
mtime pops the path from all three dicts, otherwise all three entries are
rewritten from the load result. -/
def applyResult (σ : CacheState) (r : LoadResult) : CacheState :=
  match r.mtime with
  | none =>
    ⟨setF σ.file_contents r.path none, setF σ.file_char_counts r.path none,
     setF σ.file_mtimes r.path none⟩
  | some m =>
    ⟨setF σ.file_contents r.path (some r.content),
     setF σ.file_char_counts r.path (some r.charCount),
     setF σ.file_mtimes r.path (some m)⟩

/-- The full write-back loop over the load results, in order. -/
def applyResults (σ : CacheState) : List LoadResult → CacheState
  | [] => σ
  | r :: rs => applyResults (applyResult σ r) rs

/-- Embeds `ProjectModel.update_file_contents` for a valid current project,
sequentially (the thread pool maps `load_single` over the dirty paths and the
results are written back under one lock, so the sequential composition is the
observable behaviour).  Returns the new cache state and the `bool` result. -/
def update_file_contents (maxFS : Nat) (disk : String → DiskEntry)
    (σ : CacheState) (sel : List String) : CacheState × Bool :=
  if sel.isEmpty then (σ, false)
  else
    let dirty := dirtyPaths disk σ sel
    if dirty.isEmpty then (σ, false)
    else (applyResults σ (dirty.map (load_single maxFS disk)), true)

/-- Python `sorted(selected_files)` (lexicographic code-point order on
strings, which is `String`'s linear order). -/
def sortedSel (l : List String) : List String :=
  List.insertionSort (fun a b => a ≤ b) l

/-- Embeds `MainController.get_precompute_key` as the sequence of chunks fed
to the MD5 hash, in `h.update` order.  MD5 is deterministic over the
concatenated byte stream, so equal chunk sequences give equal key strings;
every claim about this key asserts an equality, which the transcript
equality entails.  `projName`/`projPath` use `""` for a falsy value;
`diskMtime fp` is `os.stat(join(proj_path, fp)).st_mtime_ns` with `none`
for an `OSError` (the code then contributes the sentinel `0`);
`templates` backs `SettingsModel.get_template_content`, whose default for a
missing name is `""`. -/
def get_precompute_key (projName projPath : String)
    (diskMtime : String → Option Nat) (templates : String → Option String)
    (selectedFiles : List String) (templateName clipboard : String) : List String :=
  let head := if projName = "" then [] else
    projName :: (if projPath = "" then [] else [projPath])
  let mids := (sortedSel selectedFiles).foldr
    (fun fp acc => fp :: toString ((diskMtime fp).getD 0) :: acc) []
  let tc := (templates templateName).getD ""
  head ++ mids ++
    (if containsSub PH_CLIPBOARD tc.toList then [clipboard] else []) ++
    [templateName, tc]

/-- The distinct user-facing validation failures raised by
`MainController._initiate_generation` before it dispatches any work. -/
inductive ValidationError where
  | emptySelection
  | selectionTooLarge
  | invalidProjectPath
deriving DecidableEq, Repr

/-- Embeds the validation sequence of `_initiate_generation`
(`main_controller.py` lines 429-431), in source order: empty selection with a
template that does not use the clipboard placeholder; more selected files
than `max_files`; project root not existing on disk.  `templateContent` is
the already-resolved `get_template_content(template_name)`. -/
def validate_generation (selectedFiles : List String) (templateContent : String)
    (maxFiles : Nat) (projectPathValid : Bool) : Option ValidationError :=
  if selectedFiles.isEmpty ∧ ¬ containsSub PH_CLIPBOARD templateContent.toList then
    some .emptySelection
  else if selectedFiles.length > maxFiles then some .selectionTooLarge
  else if ¬ projectPathValid then some .invalidProjectPath
  else none

/-- Outcome of `_initiate_generation`'s pre-dispatch phase: either a
validation error returned to the user before any cache refresh or render, or
the request proceeds (cache lookup, then `update_file_contents` and a
render in a worker). -/
inductive GenOutcome where
  | rejected (e : ValidationError)
  | dispatched
deriving DecidableEq, Repr

/-- The control flow of `_initiate_generation` up to dispatch: a validation
failure returns immediately; otherwise the generation proceeds. -/
def initiate_generation (selectedFiles : List String) (templateContent : String)
    (maxFiles : Nat) (projectPathValid : Bool) : GenOutcome :=
  match validate_generation selectedFiles templateContent maxFiles projectPathValid with
  | some e => .rejected e
  | none => .dispatched

theorem head?_dropWhile_false {p : Char → Bool} {l : Str} {a : Char}
    (h : (l.dropWhile p).head? = some a) : p a = false := by
  induction l with
  | nil => simp [List.dropWhile] at h
  | cons c r ih =>
    rw [List.dropWhile] at h
    by_cases hc : p c
    · exact ih (by simpa [hc] using h)
    · simp only [hc] at h
      simp only [Bool.false_eq_true, if_false, List.head?_cons, Option.some.injEq] at h
      subst h
      simpa using hc

theorem getLast?_pyRstripNl (s : Str) : (pyRstripNl s).getLast? ≠ some '\n' := by
  intro h
  rw [pyRstripNl, rstripBy, List.getLast?_reverse] at h
  have := head?_dropWhile_false h
  simp at this

theorem rstripNl_single_newline (s : Str) :
    ∃ t : Str, pyRstripNl s ++ ['\n'] = t ++ ['\n'] ∧ t.getLast? ≠ some '\n' :=
  ⟨pyRstripNl s, rfl, getLast?_pyRstripNl s⟩

/-- Claim C9: the prompt returned by the final render (`simulate_final_prompt`,
and `simulate_generation_static`'s return value) always ends with exactly one
trailing `'\n'`: it is some string not ending in `'\n'`, followed by a single
`'\n'`; in particular its last character is `'\n'` and it does not end with
two consecutive newlines. -/
theorem C9_single_trailing_newline :
    ∀ (selection : List String) (templateContent clipboardContent dirTree pfx : Str)
      (fc : String → Option Str) (fcc : String → Option Nat) (maxCS : Nat),
      (∃ t : Str,
        (simulate_final_prompt selection templateContent clipboardContent dirTree pfx
            fc fcc maxCS).prompt = t ++ ['\n'] ∧ t.getLast? ≠ some '\n') ∧
      (∃ t : Str,
        (simulate_generation_static selection templateContent clipboardContent dirTree pfx
            fc fcc maxCS).prompt = t ++ ['\n'] ∧ t.getLast? ≠ some '\n') := by
  intro selection templateContent clipboardContent dirTree pfx fc fcc maxCS
  exact ⟨rstripNl_single_newline _, rstripNl_single_newline _⟩

theorem simLoop_nil (g : Bool) (fc : String → Option Str) (fcc : String → Option Nat)
    (maxCS tc ts : Nat) : simLoop g fc fcc maxCS [] tc ts = ⟨[], [], [], tc, ts⟩ := by
  simp [simLoop]

theorem simLoop_cons_none {fc : String → Option Str} {rp : String}
    (g : Bool) (fcc : String → Option Nat) (maxCS : Nat) (rest : List String) (tc ts : Nat)
    (hfc : fc rp = none) :
    simLoop g fc fcc maxCS (rp :: rest) tc ts = simLoop g fc fcc maxCS rest tc ts := by
  simp [simLoop, hfc]

theorem simLoop_cons_sent {fc : String → Option Str} {rp : String}
    (g : Bool) (fcc : String → Option Nat) (maxCS : Nat) (rest : List String) (tc ts : Nat)
    (hfc : fc rp = some FILE_TOO_LARGE_SENTINEL) :
    simLoop g fc fcc maxCS (rp :: rest) tc ts =
      let r := simLoop g fc fcc maxCS rest tc (ts + (fcc rp).getD 0)
      ⟨r.blocks, rp :: r.oversized, r.truncated, r.totalContent, r.totalChars⟩ := by
  simp [simLoop, hfc]

theorem simLoop_cons_cut {fc : String → Option Str} {rp : String} {c : Str}
    (g : Bool) (fcc : String → Option Nat) (maxCS : Nat) (rest : List String) (tc ts : Nat)
    (hfc : fc rp = some c) (hsent : ¬ c = FILE_TOO_LARGE_SENTINEL)
    (hcut : tc + c.length > maxCS ∧ (g = true → c ≠ [])) :
    simLoop g fc fcc maxCS (rp :: rest) tc ts = ⟨[], [], rp :: rest, tc, ts⟩ := by
  simp only [simLoop, hfc]
  rw [if_neg hsent, if_pos hcut]

theorem simLoop_cons_incl {fc : String → Option Str} {rp : String} {c : Str}
    (g : Bool) (fcc : String → Option Nat) (maxCS : Nat) (rest : List String) (tc ts : Nat)
    (hfc : fc rp = some c) (hsent : ¬ c = FILE_TOO_LARGE_SENTINEL)
    (hcut : ¬ (tc + c.length > maxCS ∧ (g = true → c ≠ []))) :
    simLoop g fc fcc maxCS (rp :: rest) tc ts =
      let r := simLoop g fc fcc maxCS rest (tc + c.length) (ts + c.length)
      ⟨contentBlock rp c :: r.blocks, r.oversized, r.truncated, r.totalContent, r.totalChars⟩ := by
  simp only [simLoop, hfc]
  rw [if_neg hsent, if_neg hcut]

theorem simLoop_budget (g : Bool) (fc : String → Option Str) (fcc : String → Option Nat)
    (maxCS : Nat) :
    ∀ (sel : List String) (tc ts : Nat), tc ≤ maxCS →
      ∃ inc : List (String × Str),
        (simLoop g fc fcc maxCS sel tc ts).blocks =
          inc.map (fun pc => contentBlock pc.1 pc.2) ∧
        (simLoop g fc fcc maxCS sel tc ts).totalContent =
          tc + (inc.map fun pc => pc.2.length).sum ∧
        (simLoop g fc fcc maxCS sel tc ts).totalContent ≤ maxCS := by
  intro sel
  induction sel with
  | nil =>
    intro tc ts h
    exact ⟨[], by simp [simLoop], by simp [simLoop], by simpa [simLoop] using h⟩
  | cons rp rest ih =>
    intro tc ts h
    cases hfc : fc rp with
    | none => simpa [simLoop_cons_none g fcc maxCS rest tc ts hfc] using ih tc ts h
    | some content =>
      by_cases hsent : content = FILE_TOO_LARGE_SENTINEL
      · subst hsent
        obtain ⟨inc, h1, h2, h3⟩ := ih tc (ts + (fcc rp).getD 0) h
        rw [simLoop_cons_sent g fcc maxCS rest tc ts hfc]
        exact ⟨inc, h1, h2, h3⟩
      · by_cases hcut : tc + content.length > maxCS ∧ (g = true → content ≠ [])
        · rw [simLoop_cons_cut g fcc maxCS rest tc ts hfc hsent hcut]
          exact ⟨[], by simp, by simp, by simpa using h⟩
        · have hle : tc + content.length ≤ maxCS := by
            rcases Classical.em (g = true → content ≠ []) with hg | hg
            · have hA : ¬ tc + content.length > maxCS := fun ha => hcut ⟨ha, hg⟩
              omega
            · push_neg at hg
              simp [hg.2]
              omega
          obtain ⟨inc, h1, h2, h3⟩ := ih (tc + content.length) (ts + content.length) hle
          rw [simLoop_cons_incl g fcc maxCS rest tc ts hfc hsent hcut]
          refine ⟨(rp, content) :: inc, by simpa using h1, ?_, by simpa using h3⟩
          simp only [List.map_cons, List.sum_cons]
          simp only [h2]
          omega

/-- Claim C10 (implicit content-budget invariant): in every render loop of
`simulate_generation` (`g = true`) and `simulate_generation_static`
(`g = false`), the running `total_content_size` never exceeds
`max_content_size` at any point of the iteration (the intermediate values
are exactly the final values over the prefixes of the selection), and the
emitted content blocks are the delimited blocks of a list of included files
whose total content length is the final `total_content_size`, hence at most
`max_content_size`. -/
theorem C10_content_budget_invariant :
    ∀ (g : Bool) (fc : String → Option Str) (fcc : String → Option Nat) (maxCS : Nat)
      (sel : List String),
      (∀ k : Nat, (simLoop g fc fcc maxCS (sel.take k) 0 0).totalContent ≤ maxCS) ∧
      ∃ inc : List (String × Str),
        (simLoop g fc fcc maxCS sel 0 0).blocks =
          inc.map (fun pc => contentBlock pc.1 pc.2) ∧
        (inc.map fun pc => pc.2.length).sum = (simLoop g fc fcc maxCS sel 0 0).totalContent ∧
        (inc.map fun pc => pc.2.length).sum ≤ maxCS := by
  intro g fc fcc maxCS sel
  constructor
  · intro k
    exact (simLoop_budget g fc fcc maxCS (sel.take k) 0 0 (Nat.zero_le _)).choose_spec.2.2
  · obtain ⟨inc, h1, h2, h3⟩ := simLoop_budget g fc fcc maxCS sel 0 0 (Nat.zero_le _)
    exact ⟨inc, h1, by omega, by omega⟩

/-- Specification-side description of the truncation cutoff, written from the
claim's words: walk the selection in order keeping a cumulative total of the
included (loaded, non-oversized) contents; at the first path whose loaded
content would push the total past the budget, stop, returning the included
files so far and that path together with every subsequent selected path. -/
def truncSpec (fc : String → Option Str) (maxCS : Nat) :
    List String → Nat → (List (String × Str) × List String)
  | [], _ => ([], [])
  | rp :: rest, tot =>
    match fc rp with
    | none => truncSpec fc maxCS rest tot
    | some c =>
      if c = FILE_TOO_LARGE_SENTINEL then truncSpec fc maxCS rest tot
      else if tot + c.length > maxCS then ([], rp :: rest)
      else
        let q := truncSpec fc maxCS rest (tot + c.length)
        ((rp, c) :: q.1, q.2)

theorem simLoop_truncSpec (g : Bool) (fc : String → Option Str) (fcc : String → Option Nat)
    (maxCS : Nat) :
    ∀ (sel : List String) (tc ts : Nat), tc ≤ maxCS →
      (simLoop g fc fcc maxCS sel tc ts).blocks =
        ((truncSpec fc maxCS sel tc).1).map (fun pc => contentBlock pc.1 pc.2) ∧
      (simLoop g fc fcc maxCS sel tc ts).truncated = (truncSpec fc maxCS sel tc).2 := by
  intro sel
  induction sel with
  | nil => intro tc ts h; simp [simLoop, truncSpec]
  | cons rp rest ih =>
    intro tc ts h
    cases hfc : fc rp with
    | none =>
      rw [simLoop_cons_none g fcc maxCS rest tc ts hfc]
      simpa [truncSpec, hfc] using ih tc ts h
    | some content =>
      by_cases hsent : content = FILE_TOO_LARGE_SENTINEL
      · subst hsent
        rw [simLoop_cons_sent g fcc maxCS rest tc ts hfc]
        simpa [truncSpec, hfc] using ih tc (ts + (fcc rp).getD 0) h
      · by_cases hA : tc + content.length > maxCS
        · have hB : content ≠ [] := by
            intro h0
            rw [h0] at hA
            simp at hA
            omega
          have hcut : tc + content.length > maxCS ∧ (g = true → content ≠ []) :=
            ⟨hA, fun _ => hB⟩
          rw [simLoop_cons_cut g fcc maxCS rest tc ts hfc hsent hcut]
          simp [truncSpec, hfc, hsent, hA]
        · have hcut : ¬ (tc + content.length > maxCS ∧ (g = true → content ≠ [])) :=
            fun hc => hA hc.1
          have hle : tc + content.length ≤ maxCS := by omega
          have hrec := ih (tc + content.length) (ts + content.length) hle
          rw [simLoop_cons_incl g fcc maxCS rest tc ts hfc hsent hcut]
          simp [truncSpec, hfc, hsent, hA, hrec.1, hrec.2]

/-- Claim C1: for every ordered selection and content map, the render loop of
`simulate_generation` (`g = true`) and `simulate_generation_static`
(`g = false`) includes file contents in selection order until the first path
whose loaded content would push the cumulative included-content length past
`max_content_size`; there it stops including content (the emitted content
blocks are exactly those of the paths before the cutoff, so no truncated
path contributes a block to the prompt), and that path together with every
subsequent selected path, in order, is returned in `truncated_files`.  In
particular for selection `["a", "b", "c"]` with content lengths `[100, 100,
100]` and `max_content_size = 150`, only `a`'s content block is emitted and
both `b` and `c` appear in `truncated_files`. -/
theorem C1_truncation_cutoff :
    (∀ (g : Bool) (fc : String → Option Str) (fcc : String → Option Nat)
       (maxCS : Nat) (sel : List String),
       (simLoop g fc fcc maxCS sel 0 0).blocks =
         ((truncSpec fc maxCS sel 0).1).map (fun pc => contentBlock pc.1 pc.2) ∧
       (simLoop g fc fcc maxCS sel 0 0).truncated = (truncSpec fc maxCS sel 0).2) ∧
    (∀ g : Bool,
       (simLoop g
          (fun p => if p = "a" ∨ p = "b" ∨ p = "c"
                    then some (List.replicate 100 'x') else none)
          (fun _ => none) 150 ["a", "b", "c"] 0 0).blocks =
         [contentBlock "a" (List.replicate 100 'x')] ∧
       (simLoop g
          (fun p => if p = "a" ∨ p = "b" ∨ p = "c"
                    then some (List.replicate 100 'x') else none)
          (fun _ => none) 150 ["a", "b", "c"] 0 0).truncated = ["b", "c"]) := by
  constructor
  · intro g fc fcc maxCS sel
    exact simLoop_truncSpec g fc fcc maxCS sel 0 0 (Nat.zero_le _)
  · intro g
    cases g <;> exact ⟨by decide, by decide⟩

theorem simLoop_oversized_mem (g : Bool) (fc : String → Option Str)
    (fcc : String → Option Nat) (maxCS : Nat) :
    ∀ (sel : List String) (tc ts : Nat) (rp : String),
      rp ∈ (simLoop g fc fcc maxCS sel tc ts).oversized →
      fc rp = some FILE_TOO_LARGE_SENTINEL := by
  intro sel
  induction sel with
  | nil => intro tc ts rp h; simp [simLoop] at h
  | cons q rest ih =>
    intro tc ts rp h
    cases hfc : fc q with
    | none =>
      rw [simLoop_cons_none g fcc maxCS rest tc ts hfc] at h
      exact ih tc ts rp h
    | some content =>
      by_cases hsent : content = FILE_TOO_LARGE_SENTINEL
      · subst hsent
        rw [simLoop_cons_sent g fcc maxCS rest tc ts hfc] at h
        rcases List.mem_cons.mp h with h | h
        · subst h; exact hfc
        · exact ih tc (ts + (fcc q).getD 0) rp h
      · by_cases hcut : tc + content.length > maxCS ∧ (g = true → content ≠ [])
        · rw [simLoop_cons_cut g fcc maxCS rest tc ts hfc hsent hcut] at h
          simp at h
        · rw [simLoop_cons_incl g fcc maxCS rest tc ts hfc hsent hcut] at h
          exact ih (tc + content.length) (ts + content.length) rp h

theorem simLoop_skip_none {fc : String → Option Str} {p : String}
    (g : Bool) (fcc : String → Option Nat) (maxCS : Nat) (hp : fc p = none) :
    ∀ (sel : List String) (tc ts : Nat),
      (simLoop g fc fcc maxCS sel tc ts).blocks =
        (simLoop g fc fcc maxCS (sel.filter fun q => q ≠ p) tc ts).blocks ∧
      (simLoop g fc fcc maxCS sel tc ts).oversized =
        (simLoop g fc fcc maxCS (sel.filter fun q => q ≠ p) tc ts).oversized ∧
      (simLoop g fc fcc maxCS sel tc ts).totalContent =
        (simLoop g fc fcc maxCS (sel.filter fun q => q ≠ p) tc ts).totalContent ∧
      (simLoop g fc fcc maxCS sel tc ts).totalChars =
        (simLoop g fc fcc maxCS (sel.filter fun q => q ≠ p) tc ts).totalChars := by
  intro sel
  induction sel with
  | nil => intro tc ts; simp
  | cons q rest ih =>
    intro tc ts
    by_cases hq : q = p
    · subst hq
      have hfil : (q :: rest).filter (fun x => x ≠ q) = rest.filter (fun x => x ≠ q) := by
        simp [List.filter_cons]
      rw [hfil, simLoop_cons_none g fcc maxCS rest tc ts hp]
      exact ih tc ts
    · have hfil : (q :: rest).filter (fun x => x ≠ p) =
          q :: rest.filter (fun x => x ≠ p) := by
        simp [List.filter_cons, hq]
      rw [hfil]
      cases hfc : fc q with
      | none =>
        rw [simLoop_cons_none g fcc maxCS rest tc ts hfc,
          simLoop_cons_none g fcc maxCS (rest.filter fun x => x ≠ p) tc ts hfc]
        exact ih tc ts
      | some content =>
        by_cases hsent : content = FILE_TOO_LARGE_SENTINEL
        · subst hsent
          rw [simLoop_cons_sent g fcc maxCS rest tc ts hfc,
            simLoop_cons_sent g fcc maxCS (rest.filter fun x => x ≠ p) tc ts hfc]
          have := ih tc (ts + (fcc q).getD 0)
          exact ⟨this.1, by simp [this.2.1], this.2.2⟩
        · by_cases hcut : tc + content.length > maxCS ∧ (g = true → content ≠ [])
          · rw [simLoop_cons_cut g fcc maxCS rest tc ts hfc hsent hcut,
              simLoop_cons_cut g fcc maxCS (rest.filter fun x => x ≠ p) tc ts hfc hsent hcut]
            exact ⟨rfl, rfl, rfl, rfl⟩
          · rw [simLoop_cons_incl g fcc maxCS rest tc ts hfc hsent hcut,
              simLoop_cons_incl g fcc maxCS (rest.filter fun x => x ≠ p) tc ts hfc hsent hcut]
            have := ih (tc + content.length) (ts + content.length)
            exact ⟨by simp [this.1], this.2.1, this.2.2⟩

theorem load_single_path (maxFS : Nat) (disk : String → DiskEntry) (rp : String) :
    (load_single maxFS disk rp).path = rp := by
  rw [load_single]
  rcases disk rp with _ | _ | ⟨m, sz, d⟩ <;> simp
  split <;> simp

theorem dedupFirstAux_mem (l : List String) : ∀ (seen : List String) (a : String),
    a ∈ dedupFirstAux seen l ↔ a ∈ l ∧ a ∉ seen := by
  induction l with
  | nil => intro seen a; simp [dedupFirstAux]
  | cons x xs ih =>
    intro seen a
    rw [dedupFirstAux]
    by_cases hx : x ∈ seen
    · rw [if_pos hx, ih]
      constructor
      · rintro ⟨h1, h2⟩
        exact ⟨List.mem_cons_of_mem _ h1, h2⟩
      · rintro ⟨h1, h2⟩
        rcases List.mem_cons.mp h1 with h1 | h1
        · subst h1; exact absurd hx h2
        · exact ⟨h1, h2⟩
    · rw [if_neg hx]
      constructor
      · intro h
        rcases List.mem_cons.mp h with h | h
        · subst h; exact ⟨List.mem_cons_self _ _, hx⟩
        · obtain ⟨h1, h2⟩ := (ih (x :: seen) a).mp h
          exact ⟨List.mem_cons_of_mem _ h1, fun hs => h2 (List.mem_cons_of_mem _ hs)⟩
      · rintro ⟨h1, h2⟩
        by_cases hax : a = x
        · subst hax; exact List.mem_cons_self _ _
        · rcases List.mem_cons.mp h1 with h1 | h1
          · exact absurd h1 hax
          · refine List.mem_cons_of_mem _ ((ih (x :: seen) a).mpr ⟨h1, ?_⟩)
            intro hs
            rcases List.mem_cons.mp hs with hs | hs
            · exact hax hs
            · exact h2 hs

theorem dedupFirstAux_nodup (l : List String) : ∀ seen : List String,
    (dedupFirstAux seen l).Nodup := by
  induction l with
  | nil => intro seen; simp [dedupFirstAux]
  | cons x xs ih =>
    intro seen
    rw [dedupFirstAux]
    by_cases hx : x ∈ seen
    · rw [if_pos hx]; exact ih seen
    · rw [if_neg hx]
      refine List.nodup_cons.mpr ⟨?_, ih _⟩
      intro hmem
      exact ((dedupFirstAux_mem xs _ x).mp hmem).2 (List.mem_cons_self _ _)

theorem dedupFirst_mem (l : List String) (a : String) : a ∈ dedupFirst l ↔ a ∈ l := by
  rw [dedupFirst, dedupFirstAux_mem]
  simp

theorem dedupFirst_nodup (l : List String) : (dedupFirst l).Nodup :=
  dedupFirstAux_nodup l []

theorem applyResult_other {σ : CacheState} {r : LoadResult} {p : String}
    (h : p ≠ r.path) :
    (applyResult σ r).file_contents p = σ.file_contents p ∧
    (applyResult σ r).file_char_counts p = σ.file_char_counts p ∧
    (applyResult σ r).file_mtimes p = σ.file_mtimes p := by
  rw [applyResult]
  rcases r.mtime with _ | m <;> simp [setF, h]

theorem applyResults_other : ∀ (rs : List LoadResult) (σ : CacheState) (p : String),
    p ∉ rs.map (fun r => r.path) →
    (applyResults σ rs).file_contents p = σ.file_contents p ∧
    (applyResults σ rs).file_char_counts p = σ.file_char_counts p ∧
    (applyResults σ rs).file_mtimes p = σ.file_mtimes p := by
  intro rs
  induction rs with
  | nil => intro σ p _; exact ⟨rfl, rfl, rfl⟩
  | cons r rest ih =>
    intro σ p hp
    simp only [List.map_cons, List.mem_cons, not_or] at hp
    have h1 := applyResult_other (σ := σ) (r := r) hp.1
    have h2 := ih (applyResult σ r) p (by simpa using hp.2)
    exact ⟨h2.1.trans h1.1, h2.2.1.trans h1.2.1, h2.2.2.trans h1.2.2⟩

theorem applyResult_self (σ : CacheState) (r : LoadResult) :
    (applyResult σ r).file_contents r.path =
      (match r.mtime with | none => none | some _ => some r.content) ∧
    (applyResult σ r).file_char_counts r.path =
      (match r.mtime with | none => none | some _ => some r.charCount) ∧
    (applyResult σ r).file_mtimes r.path = r.mtime := by
  rw [applyResult]
  rcases r.mtime with _ | m <;> simp [setF]

theorem applyResults_mem : ∀ (rs : List LoadResult) (σ : CacheState) (r : LoadResult),
    (rs.map (fun x => x.path)).Nodup → r ∈ rs →
    (applyResults σ rs).file_contents r.path =
      (match r.mtime with | none => none | some _ => some r.content) ∧
    (applyResults σ rs).file_char_counts r.path =
      (match r.mtime with | none => none | some _ => some r.charCount) ∧
    (applyResults σ rs).file_mtimes r.path = r.mtime := by
  intro rs
  induction rs with
  | nil => intro σ r _ hmem; simp at hmem
  | cons r0 rest ih =>
    intro σ r hnd hmem
    simp only [List.map_cons, List.nodup_cons] at hnd
    rcases List.mem_cons.mp hmem with h | h
    · subst h
      have hout : r.path ∉ rest.map (fun x => x.path) := hnd.1
      have := applyResults_other rest (applyResult σ r) r.path hout
      have hself := applyResult_self σ r
      exact ⟨this.1.trans hself.1, this.2.1.trans hself.2.1, this.2.2.trans hself.2.2⟩
    · exact ih (applyResult σ r0) r hnd.2 h

theorem dirty_results_paths (maxFS : Nat) (disk : String → DiskEntry)
    (dirty : List String) :
    (dirty.map (load_single maxFS disk)).map (fun r => r.path) = dirty := by
  rw [List.map_map]
  have : ((fun r : LoadResult => r.path) ∘ load_single maxFS disk) = fun rp => rp := by
    funext rp
    exact load_single_path maxFS disk rp
  rw [this]
  exact List.map_id dirty

theorem mem_dirtyPaths {disk : String → DiskEntry} {σ : CacheState}
    {sel : List String} {p : String} :
    p ∈ dirtyPaths disk σ sel ↔
      p ∈ sel ∧ ((pyGet σ p).isNone = true ∨
        ((pyGet σ p).isNone = false ∧ mtimeDirty disk σ.file_mtimes p = true)) := by
  rw [dirtyPaths, dedupFirst_mem, List.mem_append, dirtyPhase1, dirtyPhase2]
  simp only [List.mem_filter, Bool.not_eq_true', Bool.not_eq_false]
  constructor
  · rintro (⟨h1, h2⟩ | ⟨⟨h1, h2⟩, h3⟩)
    · exact ⟨h1, Or.inl h2⟩
    · exact ⟨h1, Or.inr ⟨h2, h3⟩⟩
  · rintro ⟨h1, h2 | ⟨h2, h3⟩⟩
    · exact Or.inl ⟨h1, h2⟩
    · exact Or.inr ⟨⟨h1, h2⟩, h3⟩

theorem dirtyPaths_nil (disk : String → DiskEntry) (σ : CacheState) :
    dirtyPaths disk σ [] = [] := by
  simp [dirtyPaths, dirtyPhase1, dirtyPhase2, dedupFirst, dedupFirstAux]

theorem update_of_no_dirty {maxFS : Nat} {disk : String → DiskEntry} {σ : CacheState}
    {sel : List String} (h : dirtyPaths disk σ sel = []) :
    update_file_contents maxFS disk σ sel = (σ, false) := by
  by_cases h1 : sel.isEmpty
  · simp [update_file_contents, h1]
  · simp [update_file_contents, h1, h]

theorem update_frame (maxFS : Nat) {disk : String → DiskEntry} {σ : CacheState}
    {sel : List String} {p : String} (hp : p ∉ dirtyPaths disk σ sel) :
    (update_file_contents maxFS disk σ sel).1.file_contents p = σ.file_contents p ∧
    (update_file_contents maxFS disk σ sel).1.file_char_counts p = σ.file_char_counts p ∧
    (update_file_contents maxFS disk σ sel).1.file_mtimes p = σ.file_mtimes p := by
  by_cases h1 : sel.isEmpty
  · simp [update_file_contents, h1]
  · by_cases h2 : (dirtyPaths disk σ sel).isEmpty
    · simp [update_file_contents, h1, h2]
    · have : (update_file_contents maxFS disk σ sel).1 =
          applyResults σ ((dirtyPaths disk σ sel).map (load_single maxFS disk)) := by
        simp [update_file_contents, h1, h2]
      rw [this]
      apply applyResults_other
      rw [dirty_results_paths]
      exact hp

theorem update_lookup (maxFS : Nat) {disk : String → DiskEntry} {σ : CacheState}
    {sel : List String} {p : String} (hp : p ∈ dirtyPaths disk σ sel) :
    (update_file_contents maxFS disk σ sel).1.file_contents p =
      (match (load_single maxFS disk p).mtime with
       | none => none
       | some _ => some (load_single maxFS disk p).content) ∧
    (update_file_contents maxFS disk σ sel).1.file_char_counts p =
      (match (load_single maxFS disk p).mtime with
       | none => none
       | some _ => some (load_single maxFS disk p).charCount) ∧
    (update_file_contents maxFS disk σ sel).1.file_mtimes p =
      (load_single maxFS disk p).mtime := by
  have hpsel : p ∈ sel := (mem_dirtyPaths.mp hp).1
  have h1 : sel.isEmpty = false := by
    cases sel
    · simp at hpsel
    · rfl
  have h2 : (dirtyPaths disk σ sel).isEmpty = false := by
    rcases hd : dirtyPaths disk σ sel with _ | ⟨a, l⟩
    · rw [hd] at hp; simp at hp
    · rfl
  have hupd : (update_file_contents maxFS disk σ sel).1 =
      applyResults σ ((dirtyPaths disk σ sel).map (load_single maxFS disk)) := by
    simp [update_file_contents, h1, h2]
  rw [hupd]
  have hnd : (((dirtyPaths disk σ sel).map (load_single maxFS disk)).map
      (fun r => r.path)).Nodup := by
    rw [dirty_results_paths]
    exact dedupFirst_nodup _
  have hmem : load_single maxFS disk p ∈
      (dirtyPaths disk σ sel).map (load_single maxFS disk) :=
    List.mem_map_of_mem _ hp
  have := applyResults_mem _ σ (load_single maxFS disk p) hnd hmem
  rwa [load_single_path] at this

theorem update_changed_iff (maxFS : Nat) (disk : String → DiskEntry) (σ : CacheState)
    (sel : List String) :
    (update_file_contents maxFS disk σ sel).2 = true ↔ dirtyPaths disk σ sel ≠ [] := by
  by_cases h1 : sel.isEmpty
  · have hsel : sel = [] := List.isEmpty_iff.mp h1
    subst hsel
    simp [update_file_contents, dirtyPaths_nil]
  · by_cases h2 : (dirtyPaths disk σ sel).isEmpty
    · simp [update_file_contents, h1, h2, List.isEmpty_iff.mp h2]
    · simp only [update_file_contents, h1, h2]
      simp only [Bool.false_eq_true, if_false]
      simp
      intro hd
      rw [hd] at h2
      simp at h2

theorem load_single_absent {disk : String → DiskEntry} {rp : String} (maxFS : Nat)
    (h : disk rp = DiskEntry.absent) :
    load_single maxFS disk rp = ⟨rp, none, none, 0⟩ := by
  simp [load_single, h]

theorem load_single_file_small {disk : String → DiskEntry} {rp : String}
    {m sz : Nat} {d : Str} {maxFS : Nat} (h : disk rp = DiskEntry.file m sz d)
    (hsz : sz ≤ maxFS) (hd : d ≠ FILE_TOO_LARGE_SENTINEL) :
    load_single maxFS disk rp =
      ⟨rp, some (unify_line_endings d), some m, (unify_line_endings d).length⟩ := by
  simp [load_single, h, hsz, hd]

theorem load_single_file_big {disk : String → DiskEntry} {rp : String}
    {m sz : Nat} {d : Str} {maxFS : Nat} (h : disk rp = DiskEntry.file m sz d)
    (hsz : ¬ sz ≤ maxFS) :
    load_single maxFS disk rp = ⟨rp, some FILE_TOO_LARGE_SENTINEL, some m, sz⟩ := by
  simp [load_single, h, hsz]

theorem load_single_file_parts {disk : String → DiskEntry} {rp : String}
    {m sz : Nat} {d : Str} (maxFS : Nat) (h : disk rp = DiskEntry.file m sz d) :
    (load_single maxFS disk rp).mtime = some m ∧
    ∃ c : Str, (load_single maxFS disk rp).content = some c := by
  by_cases hsz : sz ≤ maxFS
  · by_cases hd : d = FILE_TOO_LARGE_SENTINEL
    · subst hd
      have hsent : load_single maxFS disk rp =
          ⟨rp, some FILE_TOO_LARGE_SENTINEL, some m, sz⟩ := by
        simp [load_single, h, hsz]
      rw [hsent]
      exact ⟨rfl, _, rfl⟩
    · rw [load_single_file_small h hsz hd]
      exact ⟨rfl, _, rfl⟩
  · rw [load_single_file_big h hsz]
    exact ⟨rfl, _, rfl⟩

/-- Claim C4 counterexample: `update_file_contents` called twice in a row with
an unchanged filesystem (a selected path that does not exist on disk and has
no cache entry) returns `True` on the second call as well, although no file
is re-read — refuting "the second call re-reads no file and returns False"
and "returns True iff at least one path was actually re-read". -/
theorem C4_counterexample :
    (update_file_contents 500000 (fun _ => DiskEntry.absent)
        (update_file_contents 500000 (fun _ => DiskEntry.absent)
          ⟨fun _ => none, fun _ => none, fun _ => none⟩ ["a"]).1 ["a"]).2 = true := by
  decide

/-- Claim C4, amended: when every selected path exists on disk as a stat-able
regular file, a second `update_file_contents` call with no filesystem change
finds no dirty path (so re-reads nothing) and returns the same state with
`False`; and in general the call returns `True` iff the dirty-path scan found
at least one path to reload (cached content missing, on-disk mtime differing
from the cached one, or a cached path vanished) — not iff a file was
literally re-read, since a selected path that is missing from both cache and
disk is classified dirty on every call and makes the call return `True`
without any read. -/
theorem C4_refresh_idempotent_amended :
    ∀ (maxFS : Nat) (disk : String → DiskEntry) (σ : CacheState) (sel : List String),
      (∀ rp ∈ sel, ∃ m sz d, disk rp = DiskEntry.file m sz d) →
      dirtyPaths disk (update_file_contents maxFS disk σ sel).1 sel = [] ∧
      update_file_contents maxFS disk (update_file_contents maxFS disk σ sel).1 sel =
        ((update_file_contents maxFS disk σ sel).1, false) ∧
      (∀ (disk2 : String → DiskEntry) (σ2 : CacheState) (sel2 : List String),
        (update_file_contents maxFS disk2 σ2 sel2).2 = true ↔
          dirtyPaths disk2 σ2 sel2 ≠ []) := by
  intro maxFS disk σ sel hall
  have hclean : ∀ rp ∈ sel,
      (pyGet (update_file_contents maxFS disk σ sel).1 rp).isNone = false ∧
      mtimeDirty disk (update_file_contents maxFS disk σ sel).1.file_mtimes rp = false := by
    intro rp hrp
    obtain ⟨m, sz, d, hdisk⟩ := hall rp hrp
    by_cases hd : rp ∈ dirtyPaths disk σ sel
    · obtain ⟨hc, hcc, hm⟩ := update_lookup maxFS hd
      obtain ⟨hmt, c, hco⟩ := load_single_file_parts maxFS hdisk
      rw [hmt] at hc hm
      constructor
      · simp only [pyGet, hc, hco]
        rfl
      · simp only [mtimeDirty, hdisk, hm]
        simp
    · obtain ⟨hc, hcc, hm⟩ := update_frame maxFS hd
      have hnot := mem_dirtyPaths.not.mp hd
      simp only [hrp, true_and] at hnot
      push_neg at hnot
      obtain ⟨h1, h2⟩ := hnot
      have h1' : (pyGet σ rp).isNone = false := by
        cases hv : (pyGet σ rp).isNone
        · rfl
        · exact absurd hv h1
      constructor
      · rw [pyGet] at h1' ⊢
        rw [hc]
        exact h1'
      · have h2' := h2 h1'
        cases hv : mtimeDirty disk (update_file_contents maxFS disk σ sel).1.file_mtimes rp
        · rfl
        · exfalso
          apply h2'
          have : mtimeDirty disk (update_file_contents maxFS disk σ sel).1.file_mtimes rp =
              mtimeDirty disk σ.file_mtimes rp := by
            simp only [mtimeDirty, hm]
          rw [← this, hv]
  have hdirtynil : dirtyPaths disk (update_file_contents maxFS disk σ sel).1 sel = [] := by
    rw [dirtyPaths, dirtyPhase1, dirtyPhase2]
    have e1 : sel.filter
        (fun rp => (pyGet (update_file_contents maxFS disk σ sel).1 rp).isNone) = [] := by
      rw [List.filter_eq_nil_iff]
      intro a ha
      simp [(hclean a ha).1]
    have e2 : (sel.filter
        (fun rp => !(pyGet (update_file_contents maxFS disk σ sel).1 rp).isNone)).filter
          (mtimeDirty disk (update_file_contents maxFS disk σ sel).1.file_mtimes) = [] := by
      rw [List.filter_eq_nil_iff]
      intro a ha
      simp [(hclean a (List.mem_filter.mp ha).1).2]
    rw [e1, e2]
    simp [dedupFirst, dedupFirstAux]
  exact ⟨hdirtynil, update_of_no_dirty hdirtynil,
    fun disk2 σ2 sel2 => update_changed_iff maxFS disk2 σ2 sel2⟩

/-- Claim C6: frame property of the refresh.  Any path outside the computed
dirty set — in particular every requested path whose content is already
loaded and whose cached mtime equals the current on-disk mtime of the
existing file — is not reloaded, and its three cache entries are left
unchanged (the identical stored values are retained); `update_file_contents`
rewrites entries only for dirty paths. -/
theorem C6_refresh_frame :
    ∀ (maxFS : Nat) (disk : String → DiskEntry) (σ : CacheState) (sel : List String),
      (∀ p : String, p ∉ dirtyPaths disk σ sel →
        (update_file_contents maxFS disk σ sel).1.file_contents p = σ.file_contents p ∧
        (update_file_contents maxFS disk σ sel).1.file_char_counts p = σ.file_char_counts p ∧
        (update_file_contents maxFS disk σ sel).1.file_mtimes p = σ.file_mtimes p) ∧
      (∀ (p : String) (c : Str) (m sz : Nat) (d : Str),
        pyGet σ p = some c → disk p = DiskEntry.file m sz d →
        σ.file_mtimes p = some m → p ∉ dirtyPaths disk σ sel) := by
  intro maxFS disk σ sel
  refine ⟨fun p hp => update_frame maxFS hp, ?_⟩
  intro p c m sz d hc hdisk hm hmem
  rcases (mem_dirtyPaths.mp hmem).2 with h | ⟨-, h⟩
  · rw [hc] at h
    simp at h
  · rw [mtimeDirty, hdisk, hm] at h
    simp at h

theorem C6_refresh_frame_witness :
    ("a" ∉ dirtyPaths (fun _ => DiskEntry.file 5 2 ['h', 'i'])
        ⟨fun p => if p = "a" then some (some ['h']) else none,
         fun p => if p = "a" then some 2 else none,
         fun p => if p = "a" then some 5 else none⟩ ["a"]) ∧
    (update_file_contents 9 (fun _ => DiskEntry.file 5 2 ['h', 'i'])
        ⟨fun p => if p = "a" then some (some ['h']) else none,
         fun p => if p = "a" then some 2 else none,
         fun p => if p = "a" then some 5 else none⟩ ["a"]).1.file_contents "a" =
      some (some ['h']) := by
  have h := (C6_refresh_frame 9 (fun _ => DiskEntry.file 5 2 ['h', 'i'])
      ⟨fun p => if p = "a" then some (some ['h']) else none,
       fun p => if p = "a" then some 2 else none,
       fun p => if p = "a" then some 5 else none⟩ ["a"])
  have hnd := h.2 "a" ['h'] 5 2 ['h', 'i'] (by rfl) (by rfl) (by rfl)
  exact ⟨hnd, ((h.1 "a" hnd).1).trans (by rfl)⟩

theorem C4_refresh_idempotent_amended_witness :
    update_file_contents 5 (fun _ => DiskEntry.file 1 1 ['h'])
        (update_file_contents 5 (fun _ => DiskEntry.file 1 1 ['h'])
          ⟨fun _ => none, fun _ => none, fun _ => none⟩ ["a"]).1 ["a"] =
      ((update_file_contents 5 (fun _ => DiskEntry.file 1 1 ['h'])
          ⟨fun _ => none, fun _ => none, fun _ => none⟩ ["a"]).1, false) :=
  (C4_refresh_idempotent_amended 5 (fun _ => DiskEntry.file 1 1 ['h'])
      ⟨fun _ => none, fun _ => none, fun _ => none⟩ ["a"]
      (fun rp _ => ⟨1, 1, ['h'], rfl⟩)).2.1

/-- Claim C7: a path with a cache entry whose file no longer exists on disk is
purged from all three maps by the next `update_file_contents` call that
includes it, and any subsequent render whose (possibly stale) selection still
lists the path emits no content block for it, no `oversized_files` entry, and
no contribution to either running total — the loop behaves as if the path
were filtered out of the selection (only `truncated_files`, which copies the
raw selection tail on cutoff, may still mention it). -/
theorem C7_vanished_purged :
    ∀ (maxFS : Nat) (disk : String → DiskEntry) (σ : CacheState) (sel : List String)
      (p : String) (m : Nat) (cv : Option Str),
      p ∈ sel → disk p = DiskEntry.absent → σ.file_contents p = some cv →
      σ.file_mtimes p = some m →
      ((update_file_contents maxFS disk σ sel).1.file_contents p = none ∧
       (update_file_contents maxFS disk σ sel).1.file_char_counts p = none ∧
       (update_file_contents maxFS disk σ sel).1.file_mtimes p = none) ∧
      (∀ (g : Bool) (maxCS : Nat) (sel2 : List String) (tc ts : Nat),
        p ∉ (simLoop g (pyGet (update_file_contents maxFS disk σ sel).1)
              (update_file_contents maxFS disk σ sel).1.file_char_counts
              maxCS sel2 tc ts).oversized ∧
        (simLoop g (pyGet (update_file_contents maxFS disk σ sel).1)
            (update_file_contents maxFS disk σ sel).1.file_char_counts
            maxCS sel2 tc ts).blocks =
          (simLoop g (pyGet (update_file_contents maxFS disk σ sel).1)
            (update_file_contents maxFS disk σ sel).1.file_char_counts
            maxCS (sel2.filter fun q => q ≠ p) tc ts).blocks ∧
        (simLoop g (pyGet (update_file_contents maxFS disk σ sel).1)
            (update_file_contents maxFS disk σ sel).1.file_char_counts
            maxCS sel2 tc ts).oversized =
          (simLoop g (pyGet (update_file_contents maxFS disk σ sel).1)
            (update_file_contents maxFS disk σ sel).1.file_char_counts
            maxCS (sel2.filter fun q => q ≠ p) tc ts).oversized ∧
        (simLoop g (pyGet (update_file_contents maxFS disk σ sel).1)
            (update_file_contents maxFS disk σ sel).1.file_char_counts
            maxCS sel2 tc ts).totalContent =
          (simLoop g (pyGet (update_file_contents maxFS disk σ sel).1)
            (update_file_contents maxFS disk σ sel).1.file_char_counts
            maxCS (sel2.filter fun q => q ≠ p) tc ts).totalContent ∧
        (simLoop g (pyGet (update_file_contents maxFS disk σ sel).1)
            (update_file_contents maxFS disk σ sel).1.file_char_counts
            maxCS sel2 tc ts).totalChars =
          (simLoop g (pyGet (update_file_contents maxFS disk σ sel).1)
            (update_file_contents maxFS disk σ sel).1.file_char_counts
            maxCS (sel2.filter fun q => q ≠ p) tc ts).totalChars) := by
  intro maxFS disk σ sel p m cv hsel hdisk hcv hm
  have hd : p ∈ dirtyPaths disk σ sel := by
    apply mem_dirtyPaths.mpr
    refine ⟨hsel, ?_⟩
    cases cv with
    | none =>
      left
      simp [pyGet, hcv]
    | some c =>
      right
      constructor
      · simp [pyGet, hcv]
      · simp [mtimeDirty, hdisk, hm]
  obtain ⟨hc, hcc, hmt⟩ := update_lookup maxFS hd
  rw [load_single_absent maxFS hdisk] at hc hcc hmt
  have hpurged : (update_file_contents maxFS disk σ sel).1.file_contents p = none ∧
      (update_file_contents maxFS disk σ sel).1.file_char_counts p = none ∧
      (update_file_contents maxFS disk σ sel).1.file_mtimes p = none :=
    ⟨hc, hcc, hmt⟩
  refine ⟨hpurged, ?_⟩
  intro g maxCS sel2 tc ts
  have hfc : pyGet (update_file_contents maxFS disk σ sel).1 p = none := by
    simp [pyGet, hpurged.1]
  have hskip := simLoop_skip_none g
    ((update_file_contents maxFS disk σ sel).1.file_char_counts) maxCS hfc sel2 tc ts
  refine ⟨?_, hskip.1, hskip.2.1, hskip.2.2.1, hskip.2.2.2⟩
  intro hmem
  have := simLoop_oversized_mem g _ _ maxCS sel2 tc ts p hmem
  rw [hfc] at this
  exact Option.noConfusion this

theorem C7_vanished_purged_witness :
    (update_file_contents 5 (fun _ => DiskEntry.absent)
        ⟨fun q => if q = "a" then some (some ['h']) else none,
         fun q => if q = "a" then some 1 else none,
         fun q => if q = "a" then some 7 else none⟩ ["a"]).1.file_contents "a" = none ∧
    "a" ∉ (simLoop true
        (pyGet (update_file_contents 5 (fun _ => DiskEntry.absent)
          ⟨fun q => if q = "a" then some (some ['h']) else none,
           fun q => if q = "a" then some 1 else none,
           fun q => if q = "a" then some 7 else none⟩ ["a"]).1)
        (update_file_contents 5 (fun _ => DiskEntry.absent)
          ⟨fun q => if q = "a" then some (some ['h']) else none,
           fun q => if q = "a" then some 1 else none,
           fun q => if q = "a" then some 7 else none⟩ ["a"]).1.file_char_counts
        10 ["a", "b"] 0 0).oversized := by
  have h := C7_vanished_purged 5 (fun _ => DiskEntry.absent)
    ⟨fun q => if q = "a" then some (some ['h']) else none,
     fun q => if q = "a" then some 1 else none,
     fun q => if q = "a" then some 7 else none⟩ ["a"] "a" 7 (some ['h'])
    (by decide) rfl rfl rfl
  exact ⟨h.1.1, (h.2 true 10 ["a", "b"] 0 0).1⟩

/-- Claim C5: oversized files never block a render and are counted by raw
size.  For a dirty selected file whose on-disk size exceeds `max_file_size`,
the refresh records the oversized sentinel as its content and its `st_size`
as its char count — without reading the file: the load result is independent
of the file's data.  A subsequent render of `[small, huge]` includes the
small readable file's content normally, reports the oversized file in
`oversized_files` with no content block, and adds its raw byte size (not
zero) to `total_selection_chars`. -/
theorem C5_oversized_never_blocks :
    ∀ (maxFS maxCS : Nat) (disk : String → DiskEntry) (σ : CacheState)
      (small huge : String) (ms ss : Nat) (ds : Str) (mh sh : Nat) (dh : Str) (g : Bool),
      small ≠ huge →
      disk small = DiskEntry.file ms ss ds → ss ≤ maxFS →
      ds ≠ FILE_TOO_LARGE_SENTINEL →
      unify_line_endings ds ≠ FILE_TOO_LARGE_SENTINEL →
      (unify_line_endings ds).length ≤ maxCS →
      disk huge = DiskEntry.file mh sh dh → maxFS < sh →
      pyGet σ small = none → pyGet σ huge = none →
      ((update_file_contents maxFS disk σ [small, huge]).1.file_contents huge =
          some (some FILE_TOO_LARGE_SENTINEL) ∧
       (update_file_contents maxFS disk σ [small, huge]).1.file_char_counts huge = some sh ∧
       (update_file_contents maxFS disk σ [small, huge]).1.file_mtimes huge = some mh) ∧
      (∀ d2 : Str,
        load_single maxFS (fun q => if q = huge then DiskEntry.file mh sh d2 else disk q) huge =
          load_single maxFS disk huge) ∧
      (simLoop g (pyGet (update_file_contents maxFS disk σ [small, huge]).1)
          (update_file_contents maxFS disk σ [small, huge]).1.file_char_counts
          maxCS [small, huge] 0 0 =
        ⟨[contentBlock small (unify_line_endings ds)], [huge], [],
          (unify_line_endings ds).length, (unify_line_endings ds).length + sh⟩) := by
  intro maxFS maxCS disk σ small huge ms ss ds mh sh dh g
  intro hne hds hss hdsent husent hfit hdh hsh hs0 hh0
  have hshle : ¬ sh ≤ maxFS := by omega
  have hdsmall : small ∈ dirtyPaths disk σ [small, huge] := by
    apply mem_dirtyPaths.mpr
    exact ⟨by simp, Or.inl (by simp [hs0])⟩
  have hdhuge : huge ∈ dirtyPaths disk σ [small, huge] := by
    apply mem_dirtyPaths.mpr
    exact ⟨by simp, Or.inl (by simp [hh0])⟩
  obtain ⟨hcs, hccs, hms⟩ := update_lookup maxFS hdsmall
  rw [load_single_file_small hds hss hdsent] at hcs hccs hms
  dsimp only at hcs hccs hms
  obtain ⟨hch, hcch, hmh⟩ := update_lookup maxFS hdhuge
  rw [load_single_file_big hdh hshle] at hch hcch hmh
  dsimp only at hch hcch hmh
  refine ⟨⟨hch, hcch, hmh⟩, ?_, ?_⟩
  · intro d2
    have hd2 : (fun q => if q = huge then DiskEntry.file mh sh d2 else disk q) huge =
        DiskEntry.file mh sh d2 := by simp
    rw [load_single_file_big hd2 hshle, load_single_file_big hdh hshle]
  · have hfcs : pyGet (update_file_contents maxFS disk σ [small, huge]).1 small =
        some (unify_line_endings ds) := by
      simp [pyGet, hcs]
    have hfch : pyGet (update_file_contents maxFS disk σ [small, huge]).1 huge =
        some FILE_TOO_LARGE_SENTINEL := by
      simp [pyGet, hch]
    have hcut : ¬ (0 + (unify_line_endings ds).length > maxCS ∧
        (g = true → unify_line_endings ds ≠ [])) := by
      intro hcontra
      have := hcontra.1
      omega
    rw [simLoop_cons_incl g _ maxCS [huge] 0 0 hfcs husent hcut,
      simLoop_cons_sent g _ maxCS [] _ _ hfch,
      simLoop_nil]
    simp [hcch]

theorem C5_oversized_never_blocks_witness :
    (update_file_contents 2
        (fun q => if q = "s" then DiskEntry.file 1 1 ['a']
                  else DiskEntry.file 2 3 ['x', 'y', 'z'])
        ⟨fun _ => none, fun _ => none, fun _ => none⟩
        ["s", "h"]).1.file_char_counts "h" = some 3 ∧
    simLoop true
        (pyGet (update_file_contents 2
          (fun q => if q = "s" then DiskEntry.file 1 1 ['a']
                    else DiskEntry.file 2 3 ['x', 'y', 'z'])
          ⟨fun _ => none, fun _ => none, fun _ => none⟩ ["s", "h"]).1)
        (update_file_contents 2
          (fun q => if q = "s" then DiskEntry.file 1 1 ['a']
                    else DiskEntry.file 2 3 ['x', 'y', 'z'])
          ⟨fun _ => none, fun _ => none, fun _ => none⟩ ["s", "h"]).1.file_char_counts
        10 ["s", "h"] 0 0 =
      ⟨[contentBlock "s" (unify_line_endings ['a'])], ["h"], [],
        (unify_line_endings ['a']).length, (unify_line_endings ['a']).length + 3⟩ := by
  have h := C5_oversized_never_blocks 2 10
    (fun q => if q = "s" then DiskEntry.file 1 1 ['a']
              else DiskEntry.file 2 3 ['x', 'y', 'z'])
    ⟨fun _ => none, fun _ => none, fun _ => none⟩ "s" "h" 1 1 ['a'] 2 3 ['x', 'y', 'z'] true
    (by decide) (by decide) (by decide) (by decide) (by decide) (by decide) (by decide)
    (by decide) rfl rfl
  exact ⟨h.1.2.1, h.2.2⟩

theorem sortedSel_perm_eq {l1 l2 : List String} (h : l1.Perm l2) :
    sortedSel l1 = sortedSel l2 :=
  List.eq_of_perm_of_sorted
    ((List.perm_insertionSort _ l1).trans (h.trans (List.perm_insertionSort _ l2).symm))
    (List.sorted_insertionSort _ l1) (List.sorted_insertionSort _ l2)

theorem foldr_key_congr (f g : String → Nat) :
    ∀ l : List String, (∀ p ∈ l, f p = g p) →
      l.foldr (fun fp acc => fp :: toString (f fp) :: acc) [] =
      l.foldr (fun fp acc => fp :: toString (g fp) :: acc) [] := by
  intro l
  induction l with
  | nil => intro _; rfl
  | cons x xs ih =>
    intro h
    simp only [List.foldr_cons]
    rw [h x (List.mem_cons_self _ _), ih (fun p hp => h p (List.mem_cons_of_mem _ hp))]

/-- Claim C2: `get_precompute_key` is deterministic and insensitive to the
order of its selected-files argument.  For any two selection lists that are
reorderings of each other, with the same project name and root, template
name, resolved template content and clipboard, and with on-disk mtimes that
agree on the selected paths — where a missing path contributes the sentinel
`0` through `(diskMtime p).getD 0`, so a disk on which a path is missing and
one reporting mtime `0` for it are interchangeable — the computed key
transcripts are equal (hence the MD5 key strings are equal). -/
theorem C2_key_order_insensitive :
    ∀ (projName projPath : String) (templates : String → Option String)
      (templateName clipboard : String) (dk dk2 : String → Option Nat)
      (l1 l2 : List String),
      l1.Perm l2 → (∀ p ∈ l1, (dk p).getD 0 = (dk2 p).getD 0) →
      get_precompute_key projName projPath dk templates l1 templateName clipboard =
        get_precompute_key projName projPath dk2 templates l2 templateName clipboard := by
  intro pn pp templates name clip dk dk2 l1 l2 hperm hmt
  have hsort : sortedSel l2 = sortedSel l1 := sortedSel_perm_eq hperm.symm
  have hmids : (sortedSel l1).foldr (fun fp acc => fp :: toString ((dk fp).getD 0) :: acc) [] =
      (sortedSel l1).foldr (fun fp acc => fp :: toString ((dk2 fp).getD 0) :: acc) [] :=
    foldr_key_congr (fun p => (dk p).getD 0) (fun p => (dk2 p).getD 0) (sortedSel l1)
      (fun p hp => hmt p ((List.perm_insertionSort _ l1).mem_iff.mp hp))
  rw [get_precompute_key, get_precompute_key, hsort, hmids]

theorem C2_key_order_insensitive_witness :
    get_precompute_key "proj" "/root" (fun _ => none) (fun _ => some "T")
        ["b", "a"] "tpl" "clip" =
      get_precompute_key "proj" "/root" (fun _ => some 0) (fun _ => some "T")
        ["a", "b"] "tpl" "clip" :=
  C2_key_order_insensitive "proj" "/root" (fun _ => some "T") "tpl" "clip"
    (fun _ => none) (fun _ => some 0) ["b", "a"] ["a", "b"] (by decide) (by decide)

/-- Claim C3: clipboard noninterference of the cache key.  When the resolved
template content does not contain the token `{{CLIPBOARD}}`, two
`get_precompute_key` runs differing only in the clipboard text produce equal
keys: the clipboard is fed to the hash only under that containment test. -/
theorem C3_clipboard_noninterference :
    ∀ (projName projPath : String) (dk : String → Option Nat)
      (templates : String → Option String) (sel : List String)
      (templateName c1 c2 : String),
      containsSub PH_CLIPBOARD ((templates templateName).getD "").toList = false →
      get_precompute_key projName projPath dk templates sel templateName c1 =
        get_precompute_key projName projPath dk templates sel templateName c2 := by
  intro pn pp dk templates sel name c1 c2 h
  have h2 : containsSub PH_CLIPBOARD ((templates name).getD "").data = false := h
  simp [get_precompute_key, h2]

theorem C3_clipboard_noninterference_witness :
    get_precompute_key "p" "/r" (fun _ => none) (fun _ => some "hello")
        ["a"] "t" "clipOne" =
      get_precompute_key "p" "/r" (fun _ => none) (fun _ => some "hello")
        ["a"] "t" "clipTwo" :=
  C3_clipboard_noninterference "p" "/r" (fun _ => none) (fun _ => some "hello")
    ["a"] "t" "clipOne" "clipTwo" (by decide)

/-- Claim C8 counterexample: a generation request with a non-empty selection,
a template that resolves to empty content, `max_files` respected and a valid
project path passes every validation of `_initiate_generation` and is
dispatched — there is no `InvalidTemplate` validation error for a template
resolving to empty content, contrary to the claim. -/
theorem C8_counterexample :
    initiate_generation ["a.py"] "" 500 true = GenOutcome.dispatched := by
  decide

/-- Claim C8, amended: before any cache refresh or render,
`_initiate_generation` performs exactly three distinct user-facing
validations, in order: `EmptySelection` (empty selection while the resolved
template does not contain `{{CLIPBOARD}}`), `SelectionTooLarge` (selection
exceeds `max_files`), and `InvalidProjectPath` (project root not on disk);
each failure returns before dispatch.  A template resolving to empty content
is not validated: such a request is dispatched (no `InvalidTemplate` check
exists). -/
theorem C8_validation_amended :
    ∀ (sel : List String) (tcontent : String) (mf : Nat) (pv : Bool),
      (validate_generation sel tcontent mf pv = some ValidationError.emptySelection ↔
        sel = [] ∧ containsSub PH_CLIPBOARD tcontent.toList = false) ∧
      (validate_generation sel tcontent mf pv = some ValidationError.selectionTooLarge ↔
        ¬ (sel = [] ∧ containsSub PH_CLIPBOARD tcontent.toList = false) ∧
        mf < sel.length) ∧
      (validate_generation sel tcontent mf pv = some ValidationError.invalidProjectPath ↔
        ¬ (sel = [] ∧ containsSub PH_CLIPBOARD tcontent.toList = false) ∧
        sel.length ≤ mf ∧ pv = false) ∧
      (initiate_generation sel tcontent mf pv = GenOutcome.dispatched ↔
        validate_generation sel tcontent mf pv = none) := by
  intro sel tc mf pv
  have hval : validate_generation sel tc mf pv =
      if sel = [] ∧ containsSub PH_CLIPBOARD tc.toList = false then
        some ValidationError.emptySelection
      else if mf < sel.length then some ValidationError.selectionTooLarge
      else if pv = false then some ValidationError.invalidProjectPath
      else none := by
    have hA : (sel.isEmpty ∧ ¬ containsSub PH_CLIPBOARD tc.toList = true) ↔
        (sel = [] ∧ containsSub PH_CLIPBOARD tc.toList = false) := by
      rw [List.isEmpty_iff, Bool.not_eq_true]
    rw [validate_generation]
    rcases Classical.em (sel = [] ∧ containsSub PH_CLIPBOARD tc.toList = false) with h | h
    · rw [if_pos (hA.mpr h), if_pos h]
    · rw [if_neg (fun hc => h (hA.mp hc)), if_neg h]
      have hlen : sel.length > mf ↔ mf < sel.length := Iff.rfl
      rcases Classical.em (mf < sel.length) with h2 | h2
      · rw [if_pos (hlen.mpr h2), if_pos h2]
      · rw [if_neg (fun hc => h2 (hlen.mp hc)), if_neg h2]
        rcases Classical.em (pv = false) with h3 | h3
        · rw [if_pos (show ¬ pv = true by simp [h3]), if_pos h3]
        · have hpt : pv = true := by
            cases pv
            · exact absurd rfl h3
            · rfl
          rw [if_neg (show ¬ ¬ pv = true from fun hc => hc hpt), if_neg h3]
  rw [hval, initiate_generation, hval]
  rcases Classical.em (sel = [] ∧ containsSub PH_CLIPBOARD tc.toList = false) with h | h
  · obtain ⟨hs, hc⟩ := h
    have hc2 : containsSub PH_CLIPBOARD tc.data = false := hc
    rw [if_pos ⟨hs, hc⟩]
    exact ⟨by simp [hs, hc2], by simp [hs, hc2], by simp [hs, hc2], by simp⟩
  · have h' : ¬ (sel = [] ∧ containsSub PH_CLIPBOARD tc.data = false) := h
    rw [if_neg h]
    rcases Classical.em (mf < sel.length) with h2 | h2
    · have h2' : ¬ sel.length ≤ mf := by omega
      rw [if_pos h2]
      exact ⟨by simp [h'], by simp [h', h2], by simp [h2'], by simp⟩
    · rw [if_neg h2]
      rcases Classical.em (pv = false) with h3 | h3
      · have h2' : sel.length ≤ mf := by omega
        rw [if_pos h3]
        exact ⟨by simp [h'], by simp [h2], by simp [h', h2', h3], by simp⟩
      · rw [if_neg h3]
        exact ⟨by simp [h'], by simp [h2], by simp [h3], by simp⟩

end CPG
